import Mathlib

/-!  A shallow embedding of the streaming voice-activity-detection pipeline
(`createVADController` and its helper functions).  Byte streams are `List Nat`
(one entry per byte), 16-bit samples are `Int`, raw model probabilities are
`ℚ`, and the opaque ONNX model is abstracted by an oracle that yields the raw
probability of each inference call in order.  Filesystem writes are modelled
by a success schedule indexed by the write-attempt number, and the bytes of
each successfully written WAV file are recorded in the state. -/

/-- Little-endian decoding of two bytes as one signed 16-bit sample: the
`Int16Array` view taken by `bytesToInt16Array` over a little-endian buffer. -/
def decode16 (b0 b1 : Nat) : Int :=
  if b0 + 256 * b1 < 32768 then ((b0 + 256 * b1 : Nat) : Int)
  else ((b0 + 256 * b1 : Nat) : Int) - 65536

/-- `bytesToInt16Array`: reinterpret a byte list as little-endian signed
16-bit samples; a trailing odd byte is ignored (`evenLen = len & ~1`). -/
def bytesToInt16 : List Nat → List Int
  | b0 :: b1 :: rest => decode16 b0 b1 :: bytesToInt16 rest
  | _ => []

/-- `DataView.setUint16 (littleEndian)`: the two bytes written for a value. -/
def u16le (v : Nat) : List Nat :=
  [v % 256, v / 256 % 256]

/-- `DataView.setUint32 (littleEndian)`: the four bytes written for a value. -/
def u32le (v : Nat) : List Nat :=
  [v % 256, v / 256 % 256, v / 65536 % 256, v / 16777216 % 256]

/-- The two bytes a signed 16-bit sample occupies in an `Int16Array` buffer
(little endian, two's complement). -/
def int16ToBytes (s : Int) : List Nat :=
  u16le (s % 65536).toNat

/-- `writeWav`: the canonical 44-byte PCM WAV header followed by the raw
sample payload, exactly in the order the source writes its `DataView`. -/
def writeWav (int16 : List Int) (sampleRate : Nat) : List Nat :=
  let numChannels := 1
  let bytesPerSample := 2
  let dataSize := int16.length * bytesPerSample
  [82, 73, 70, 70]
  ++ u32le (36 + dataSize)
  ++ [87, 65, 86, 69]
  ++ [102, 109, 116, 32]
  ++ u32le 16
  ++ u16le 1
  ++ u16le numChannels
  ++ u32le sampleRate
  ++ u32le (sampleRate * numChannels * bytesPerSample)
  ++ u16le (numChannels * bytesPerSample)
  ++ u16le (8 * bytesPerSample)
  ++ [100, 97, 116, 97]
  ++ u32le dataSize
  ++ (int16.map int16ToBytes).flatten

/-- Read a little-endian uint16 from the head of a byte list. -/
def readU16 (b : List Nat) : Nat :=
  b.getD 0 0 + 256 * b.getD 1 0

/-- Read a little-endian uint32 from the head of a byte list. -/
def readU32 (b : List Nat) : Nat :=
  b.getD 0 0 + 256 * b.getD 1 0 + 65536 * b.getD 2 0 + 16777216 * b.getD 3 0

lemma decode16_int16ToBytes (s : Int) (h1 : -32768 ≤ s) (h2 : s < 32768) :
    decode16 ((s % 65536).toNat % 256) ((s % 65536).toNat / 256 % 256) = s := by
  unfold decode16
  split <;> omega

lemma bytesToInt16_flatten_map (S : List Int) (hin : ∀ s ∈ S, -32768 ≤ s ∧ s < 32768) :
    bytesToInt16 ((S.map int16ToBytes).flatten) = S := by
  induction S with
  | nil => rfl
  | cons s t ih =>
    have hs := hin s (List.mem_cons_self s t)
    have ht : ∀ x ∈ t, -32768 ≤ x ∧ x < 32768 := fun x hx => hin x (List.mem_cons_of_mem s hx)
    have hd : (((s :: t).map int16ToBytes).flatten) =
        (s % 65536).toNat % 256 :: (s % 65536).toNat / 256 % 256 ::
          ((t.map int16ToBytes).flatten) := rfl
    rw [hd]
    show decode16 ((s % 65536).toNat % 256) ((s % 65536).toNat / 256 % 256) ::
        bytesToInt16 ((t.map int16ToBytes).flatten) = s :: t
    rw [decode16_int16ToBytes s hs.1 hs.2, ih ht]

lemma payload_length (S : List Int) : ((S.map int16ToBytes).flatten).length = 2 * S.length := by
  induction S with
  | nil => rfl
  | cons s t ih =>
    simp only [List.map_cons, List.flatten_cons, List.length_append, int16ToBytes, u16le,
      List.length_cons, List.length_nil, ih]
    omega

/-- Claim C6: for every sequence `S` of signed 16-bit samples and every sample
rate, the WAV encoder output has total length `44 + 2*|S|`, its `dataSize`
field at bytes 40–43 equals `2*|S|`, and re-parsing the payload from offset 44
as little-endian int16 yields `S` unchanged. -/
theorem wav_roundtrip (S : List Int) (sr : Nat)
    (hin : ∀ s ∈ S, -32768 ≤ s ∧ s < 32768) (hlen : 2 * S.length < 4294967296) :
    (writeWav S sr).length = 44 + 2 * S.length ∧
    readU32 ((writeWav S sr).drop 40) = 2 * S.length ∧
    bytesToInt16 ((writeWav S sr).drop 44) = S := by
  refine ⟨?_, ?_, ?_⟩
  · simp only [writeWav, u16le, u32le, List.length_append, List.length_cons,
      List.length_nil, payload_length]
    try omega
  · have h40 : (writeWav S sr).drop 40 =
        u32le (S.length * 2) ++ (S.map int16ToBytes).flatten := rfl
    rw [h40]
    simp only [readU32, u32le, List.cons_append, List.nil_append,
      List.getD_cons_zero, List.getD_cons_succ]
    omega
  · have h44 : (writeWav S sr).drop 44 = (S.map int16ToBytes).flatten := rfl
    rw [h44]
    exact bytesToInt16_flatten_map S hin

/-- Witness for C6 at a concrete input. -/
theorem wav_roundtrip_witness :
    ((∀ s ∈ ([1, -1, 32767, -32768] : List Int), -32768 ≤ s ∧ s < 32768) ∧
      2 * ([1, -1, 32767, -32768] : List Int).length < 4294967296) ∧
    ((writeWav [1, -1, 32767, -32768] 16000).length = 44 + 2 * ([1, -1, 32767, -32768] : List Int).length ∧
      readU32 ((writeWav [1, -1, 32767, -32768] 16000).drop 40) = 2 * ([1, -1, 32767, -32768] : List Int).length ∧
      bytesToInt16 ((writeWav [1, -1, 32767, -32768] 16000).drop 44) = [1, -1, 32767, -32768]) :=
  ⟨⟨by decide, by decide⟩, wav_roundtrip [1, -1, 32767, -32768] 16000 (by decide) (by decide)⟩

set_option maxHeartbeats 2000000 in
/-- Claim C7: for every sample sequence and sample rate the header is exactly
44 bytes (the payload starts at offset 44) and contains the RIFF/WAVE/fmt/data
magic strings, PCM format code 1 at bytes 20–21, and 16 bits per sample at
bytes 34–35. -/
theorem wav_header_constants (S : List Int) (sr : Nat) :
    (writeWav S sr).take 4 = [82, 73, 70, 70] ∧
    ((writeWav S sr).drop 8).take 4 = [87, 65, 86, 69] ∧
    ((writeWav S sr).drop 12).take 4 = [102, 109, 116, 32] ∧
    ((writeWav S sr).drop 36).take 4 = [100, 97, 116, 97] ∧
    readU16 ((writeWav S sr).drop 20) = 1 ∧
    readU16 ((writeWav S sr).drop 34) = 16 ∧
    (writeWav S sr).drop 44 = (S.map int16ToBytes).flatten := by
  refine ⟨rfl, rfl, rfl, rfl, ?_, ?_, rfl⟩
  · have h20 : (writeWav S sr).drop 20 =
        u16le 1 ++ (u16le 1 ++ (u32le sr ++ (u32le (sr * 1 * 2) ++ (u16le (1 * 2) ++
          (u16le (8 * 2) ++ ([100, 97, 116, 97] ++ (u32le (S.length * 2) ++
            (S.map int16ToBytes).flatten))))))) := rfl
    rw [h20]
    simp only [readU16, u16le, List.cons_append, List.nil_append,
      List.getD_cons_zero, List.getD_cons_succ]
  · have h34 : (writeWav S sr).drop 34 =
        u16le (8 * 2) ++ ([100, 97, 116, 97] ++ (u32le (S.length * 2) ++
          (S.map int16ToBytes).flatten)) := rfl
    rw [h34]
    simp only [readU16, u16le, List.cons_append, List.nil_append,
      List.getD_cons_zero, List.getD_cons_succ]


/-- Framing state carried across reads: the odd-byte `leftover` and the
`sampleQueue` of samples not yet emitted as a frame. -/
structure FramerState where
  leftover : List Nat
  sampleQueue : List Int
deriving DecidableEq

/-- The framer's state at `start()`: empty leftover and empty queue. -/
def initFramer : FramerState := ⟨[], []⟩

/-- Fuel-indexed unfolding of the `while (sampleQueue.length >= 512)` loop;
each iteration removes 512 samples, so any fuel of at least `q.length`
computes the loop's fixpoint. -/
def emitFramesAux : Nat → List Int → List (List Int) × List Int
  | 0, q => ([], q)
  | fuel + 1, q =>
    if 512 ≤ q.length then
      let r := emitFramesAux fuel (q.drop 512)
      (q.take 512 :: r.1, r.2)
    else ([], q)

/-- The `while (sampleQueue.length >= 512)` loop of the pipeline: emit
512-sample frames from the front of the queue, returning the emitted frames
in order together with the remaining queue. -/
def emitFrames (q : List Int) : List (List Int) × List Int :=
  emitFramesAux q.length q

lemma emitFramesAux_fuel : ∀ (f1 f2 : Nat) (q : List Int), q.length ≤ f1 → q.length ≤ f2 →
    emitFramesAux f1 q = emitFramesAux f2 q
  | 0, 0, _, _, _ => rfl
  | 0, _ + 1, q, h1, _ => by
    have h : ¬ 512 ≤ q.length := by omega
    simp only [emitFramesAux, if_neg h]
  | _ + 1, 0, q, _, h2 => by
    have h : ¬ 512 ≤ q.length := by omega
    simp only [emitFramesAux, if_neg h]
  | f1 + 1, f2 + 1, q, h1, h2 => by
    by_cases h : 512 ≤ q.length
    · have hrec := emitFramesAux_fuel f1 f2 (q.drop 512)
        (by simp only [List.length_drop]; omega)
        (by simp only [List.length_drop]; omega)
      simp only [emitFramesAux, if_pos h, hrec]
    · simp only [emitFramesAux, if_neg h]

lemma emitFrames_eq_neg {q : List Int} (h : ¬ 512 ≤ q.length) : emitFrames q = ([], q) := by
  unfold emitFrames
  cases hq : q.length with
  | zero => rfl
  | succ n => simp only [emitFramesAux, if_neg h]

lemma emitFrames_eq_pos {q : List Int} (h : 512 ≤ q.length) :
    emitFrames q = (q.take 512 :: (emitFrames (q.drop 512)).1, (emitFrames (q.drop 512)).2) := by
  unfold emitFrames
  obtain ⟨n, hn⟩ : ∃ n, q.length = n + 1 := ⟨q.length - 1, by omega⟩
  rw [hn]
  simp only [emitFramesAux, if_pos h]
  have hfuel := emitFramesAux_fuel n (q.drop 512).length (q.drop 512)
    (by simp only [List.length_drop]; omega) (Nat.le_refl _)
  rw [hfuel]

/-- One iteration of the `for await` body: prepend the leftover, truncate to
even length, reinterpret the even part as int16 samples, append them to the
queue and emit all complete frames. -/
def feedChunk (st : FramerState) (chunk : List Nat) : FramerState × List (List Int) :=
  let combined := st.leftover ++ chunk
  let evenLen := combined.length - combined.length % 2
  let usable := combined.take evenLen
  let rest := combined.drop evenLen
  let q := st.sampleQueue ++ bytesToInt16 usable
  let er := emitFrames q
  (⟨rest, er.2⟩, er.1)

/-- Feed a sequence of chunks, concatenating the emitted frames in order. -/
def feedChunks (st : FramerState) : List (List Nat) → FramerState × List (List Int)
  | [] => (st, [])
  | c :: cs =>
    let r1 := feedChunk st c
    let r2 := feedChunks r1.1 cs
    (r2.1, r1.2 ++ r2.2)

lemma bytesToInt16_append : ∀ (a b : List Nat), a.length % 2 = 0 →
    bytesToInt16 (a ++ b) = bytesToInt16 a ++ bytesToInt16 b
  | [], _, _ => rfl
  | [x], _, h => by simp at h
  | x :: y :: rest, b, h => by
    show decode16 x y :: bytesToInt16 (rest ++ b)
        = decode16 x y :: bytesToInt16 rest ++ bytesToInt16 b
    rw [bytesToInt16_append rest b (by simp only [List.length_cons] at h; omega)]
    rfl

lemma bytesToInt16_length : ∀ a : List Nat, (bytesToInt16 a).length = a.length / 2
  | [] => rfl
  | [x] => by
    show (0 : Nat) = 1 / 2
    rfl
  | x :: y :: rest => by
    show (bytesToInt16 rest).length + 1 = (rest.length + 1 + 1) / 2
    rw [bytesToInt16_length rest]
    omega

lemma bytesToInt16_take_even : ∀ a : List Nat,
    bytesToInt16 (a.take (a.length - a.length % 2)) = bytesToInt16 a
  | [] => rfl
  | [x] => rfl
  | x :: y :: rest => by
    have hlen : (x :: y :: rest).length - (x :: y :: rest).length % 2
        = (rest.length - rest.length % 2) + 2 := by
      simp only [List.length_cons]
      omega
    rw [hlen]
    have ht : (x :: y :: rest).take ((rest.length - rest.length % 2) + 2)
        = x :: y :: rest.take (rest.length - rest.length % 2) := rfl
    rw [ht]
    show decode16 x y :: bytesToInt16 (rest.take (rest.length - rest.length % 2))
        = decode16 x y :: bytesToInt16 rest
    rw [bytesToInt16_take_even rest]

theorem emitFrames_spec (q : List Int) :
    (emitFrames q).1.map List.length = List.replicate (q.length / 512) 512 ∧
    (emitFrames q).1.flatten = q.take (512 * (q.length / 512)) ∧
    (emitFrames q).2 = q.drop (512 * (q.length / 512)) := by
  by_cases h : 512 ≤ q.length
  · have ih := emitFrames_spec (q.drop 512)
    have hq := emitFrames_eq_pos h
    have hdiv : q.length / 512 = (q.length - 512) / 512 + 1 :=
      Nat.div_eq_sub_div (by omega) h
    have hdlen : (q.drop 512).length = q.length - 512 := by
      simp [List.length_drop]
    refine ⟨?_, ?_, ?_⟩
    · rw [hq]
      simp only [List.map_cons, ih.1, hdlen, hdiv, List.length_take]
      rw [List.replicate_succ]
      congr 1
      omega
    · rw [hq]
      simp only [List.flatten_cons, ih.2.1, hdlen, hdiv]
      have harith : 512 * ((q.length - 512) / 512 + 1)
          = 512 + 512 * ((q.length - 512) / 512) := by ring
      rw [harith, List.take_add]
    · rw [hq]
      simp only [ih.2.2, hdlen, hdiv]
      have harith : 512 * ((q.length - 512) / 512 + 1)
          = 512 + 512 * ((q.length - 512) / 512) := by ring
      rw [harith, ← List.drop_drop]
  · have hq := emitFrames_eq_neg h
    have hdiv : q.length / 512 = 0 := Nat.div_eq_of_lt (by omega)
    rw [hq, hdiv]
    simp
termination_by q.length
decreasing_by simp only [List.length_drop]; omega

theorem emitFrames_append (q extra : List Int) :
    emitFrames (q ++ extra) =
      ((emitFrames q).1 ++ (emitFrames ((emitFrames q).2 ++ extra)).1,
       (emitFrames ((emitFrames q).2 ++ extra)).2) := by
  by_cases h : 512 ≤ q.length
  · have ih := emitFrames_append (q.drop 512) extra
    have hq := emitFrames_eq_pos h
    have hlen : 512 ≤ (q ++ extra).length := by
      simp only [List.length_append]
      omega
    have hqe := emitFrames_eq_pos hlen
    have htake : (q ++ extra).take 512 = q.take 512 := by
      rw [List.take_append_eq_append_take]
      have h0 : 512 - q.length = 0 := by omega
      rw [h0]
      simp
    have hdrop : (q ++ extra).drop 512 = q.drop 512 ++ extra := by
      rw [List.drop_append_eq_append_drop]
      have h0 : 512 - q.length = 0 := by omega
      rw [h0]
      simp
    rw [hqe, htake, hdrop, ih, hq]
    rfl
  · have hq := emitFrames_eq_neg h
    rw [hq]
    simp
termination_by q.length
decreasing_by simp only [List.length_drop]; omega

theorem feedChunk_append (st : FramerState) (a b : List Nat) :
    feedChunk st (a ++ b) =
      ((feedChunk (feedChunk st a).1 b).1,
       (feedChunk st a).2 ++ (feedChunk (feedChunk st a).1 b).2) := by
  unfold feedChunk
  set A := st.leftover ++ a with hA
  have hassoc : st.leftover ++ (a ++ b) = A ++ b := by
    rw [hA, List.append_assoc]
  set e1 := A.length - A.length % 2 with he1
  set u1 := A.take e1 with hu1
  set r1 := A.drop e1 with hr1
  have hr1len : r1.length = A.length % 2 := by
    rw [hr1, List.length_drop]
    omega
  set C2 := r1 ++ b with hC2
  set e2 := C2.length - C2.length % 2 with he2
  have hC2len : C2.length = A.length % 2 + b.length := by
    rw [hC2, List.length_append, hr1len]
  have hE : (A ++ b).length - (A ++ b).length % 2 = e1 + e2 := by
    rw [List.length_append, he2, hC2len, he1]
    omega
  have husable : (A ++ b).take (e1 + e2) = u1 ++ C2.take e2 := by
    rw [List.take_add, hu1]
    congr 1
    · rw [List.take_append_eq_append_take]
      have h0 : e1 - A.length = 0 := by rw [he1]; omega
      rw [h0]
      simp [he1]
    · rw [List.drop_append_eq_append_drop]
      have h0 : e1 - A.length = 0 := by rw [he1]; omega
      rw [h0, hC2, hr1]
      simp
  have hrest : (A ++ b).drop (e1 + e2) = C2.drop e2 := by
    rw [← List.drop_drop, List.drop_append_eq_append_drop]
    have h0 : e1 - A.length = 0 := by rw [he1]; omega
    rw [h0, hC2, hr1]
    simp
  have hu1even : u1.length % 2 = 0 := by
    rw [hu1, List.length_take]
    omega
  have hsamples : bytesToInt16 ((A ++ b).take (e1 + e2))
      = bytesToInt16 u1 ++ bytesToInt16 (C2.take e2) := by
    rw [husable, bytesToInt16_append _ _ hu1even]
  simp only [hassoc, hE, hrest, hsamples]
  have hq : st.sampleQueue ++ (bytesToInt16 u1 ++ bytesToInt16 (C2.take e2))
      = (st.sampleQueue ++ bytesToInt16 u1) ++ bytesToInt16 (C2.take e2) := by
    rw [List.append_assoc]
  rw [hq, emitFrames_append]

theorem feedChunks_cons_flatten : ∀ (cs : List (List Nat)) (st : FramerState) (c : List Nat),
    feedChunks st (c :: cs) = feedChunk st (c ++ cs.flatten)
  | [], st, c => by
    show (feedChunk st c |>.1, (feedChunk st c).2 ++ []) = feedChunk st (c ++ [].flatten)
    rw [List.flatten_nil, List.append_nil, List.append_nil]
  | c2 :: cs, st, c => by
    show ((feedChunks (feedChunk st c).1 (c2 :: cs)).1,
        (feedChunk st c).2 ++ (feedChunks (feedChunk st c).1 (c2 :: cs)).2)
      = feedChunk st (c ++ (c2 :: cs).flatten)
    rw [feedChunks_cons_flatten cs (feedChunk st c).1 c2, List.flatten_cons,
      feedChunk_append st c (c2 ++ cs.flatten)]

theorem feedChunks_flatten (cs : List (List Nat)) :
    feedChunks initFramer cs = feedChunk initFramer cs.flatten := by
  cases cs with
  | nil => rfl
  | cons c cs => exact feedChunks_cons_flatten cs initFramer c

/-- Claim C3: for every byte stream delivered in chunks of arbitrary sizes
(empty chunks included), the framer emits exactly `L / 2 / 512` frames of 512
little-endian int16 samples each, in arrival order; the concatenation of the
emitted frames is exactly the corresponding prefix of the decoded sample
stream, so no sample outside those frames is produced and a final partial
frame is discarded. -/
theorem framer_frame_count (cs : List (List Nat)) :
    (feedChunks initFramer cs).2.map List.length
        = List.replicate (cs.flatten.length / 2 / 512) 512 ∧
    (feedChunks initFramer cs).2.flatten
        = (bytesToInt16 cs.flatten).take (512 * (cs.flatten.length / 2 / 512)) := by
  rw [feedChunks_flatten]
  set B := cs.flatten with hB
  have hfeed : feedChunk initFramer B
      = (⟨B.drop (B.length - B.length % 2), (emitFrames (bytesToInt16 B)).2⟩,
         (emitFrames (bytesToInt16 B)).1) := by
    unfold feedChunk
    simp only [initFramer, List.nil_append]
    rw [bytesToInt16_take_even]
  rw [hfeed]
  have hlen : (bytesToInt16 B).length = B.length / 2 := bytesToInt16_length B
  have hspec := emitFrames_spec (bytesToInt16 B)
  rw [hlen] at hspec
  exact ⟨hspec.1, hspec.2.1⟩

/-- Claim C4: for every byte sequence and every split point, feeding the two
pieces as two successive chunks yields exactly the same frames as feeding the
whole sequence as one chunk. -/
theorem framer_split_invariance (B : List Nat) (k : Nat) :
    (feedChunks initFramer [B.take k, B.drop k]).2 = (feedChunks initFramer [B]).2 := by
  rw [feedChunks_flatten, feedChunks_flatten]
  simp only [List.flatten_cons, List.flatten_nil, List.append_nil, List.take_append_drop]

/-- Configuration options (`VADOptions`); thresholds are rationals. -/
structure VADOptions where
  rate : Nat
  outDir : String
  modelPath : String
  speechThreshold : ℚ
  silenceThreshold : ℚ
  requiredSpeechFrames : Nat
  requiredSilenceFrames : Nat
deriving DecidableEq

/-- `defaultVADOptions()` (0.35 = 7/20, 0.05 = 1/20). -/
def defaultVADOptions : VADOptions where
  rate := 16000
  outDir := "segments"
  modelPath := "rec/public/silero_vad_v6.onnx"
  speechThreshold := 7 / 20
  silenceThreshold := 1 / 20
  requiredSpeechFrames := 2
  requiredSilenceFrames := 20

/-- A `Partial<VADOptions>` object: present fields override current ones. -/
structure PartialVADOptions where
  rate : Option Nat := none
  outDir : Option String := none
  modelPath : Option String := none
  speechThreshold : Option ℚ := none
  silenceThreshold : Option ℚ := none
  requiredSpeechFrames : Option Nat := none
  requiredSilenceFrames : Option Nat := none
deriving DecidableEq

/-- `Object.assign(opts, partial)`: merge the present fields of the partial
into the options. -/
def applyPartial (o : VADOptions) (p : PartialVADOptions) : VADOptions where
  rate := p.rate.getD o.rate
  outDir := p.outDir.getD o.outDir
  modelPath := p.modelPath.getD o.modelPath
  speechThreshold := p.speechThreshold.getD o.speechThreshold
  silenceThreshold := p.silenceThreshold.getD o.silenceThreshold
  requiredSpeechFrames := p.requiredSpeechFrames.getD o.requiredSpeechFrames
  requiredSilenceFrames := p.requiredSilenceFrames.getD o.requiredSilenceFrames

/-- `update(partial)`: throws when running, otherwise merges the partial with
no validation of any threshold invariant. -/
def update (running : Bool) (o : VADOptions) (p : PartialVADOptions) :
    Except String VADOptions :=
  if running then Except.error "Cannot update options while running"
  else Except.ok (applyPartial o p)

/-- A sequence of accepted (non-running, hence non-throwing) updates. -/
def applyUpdates (o : VADOptions) : List PartialVADOptions → VADOptions
  | [] => o
  | p :: ps => applyUpdates (applyPartial o p) ps

/-- An update that sets only `silenceThreshold`, to 0.9. -/
def badSilenceUpdate : PartialVADOptions := { silenceThreshold := some (9 / 10) }

unseal Rat.add Rat.mul Rat.inv in
/-- Claim C9 counterexample: from the defaults, the single accepted update
`{silenceThreshold: 0.9}` is not rejected (the controller only checks
`running`), and the resulting configuration violates
`silenceThreshold < speechThreshold`. -/
theorem update_invariant_counterexample :
    update false defaultVADOptions badSilenceUpdate
        = Except.ok (applyPartial defaultVADOptions badSilenceUpdate) ∧
    ¬ ((applyPartial defaultVADOptions badSilenceUpdate).silenceThreshold
        < (applyPartial defaultVADOptions badSilenceUpdate).speechThreshold) := by
  refine ⟨rfl, ?_⟩
  decide

lemma applyUpdates_thresholds (o : VADOptions) :
    ∀ ps : List PartialVADOptions,
      (∀ p ∈ ps, p.silenceThreshold = none ∧ p.speechThreshold = none) →
      (applyUpdates o ps).silenceThreshold = o.silenceThreshold ∧
      (applyUpdates o ps).speechThreshold = o.speechThreshold
  | [], _ => ⟨rfl, rfl⟩
  | p :: ps, h => by
    have hp := h p (List.mem_cons_self p ps)
    have hps : ∀ x ∈ ps, x.silenceThreshold = none ∧ x.speechThreshold = none :=
      fun x hx => h x (List.mem_cons_of_mem p hx)
    have ih := applyUpdates_thresholds (applyPartial o p) ps hps
    refine ⟨?_, ?_⟩
    · rw [show applyUpdates o (p :: ps) = applyUpdates (applyPartial o p) ps from rfl,
        ih.1, applyPartial, hp.1]
      rfl
    · rw [show applyUpdates o (p :: ps) = applyUpdates (applyPartial o p) ps from rfl,
        ih.2, applyPartial, hp.2]
      rfl

unseal Rat.add Rat.mul Rat.inv in
/-- Claim C9 (amended): `update` validates nothing, so the invariant is not
preserved in general; but every configuration reachable from the defaults by
accepted updates that leave both thresholds untouched still satisfies
`silenceThreshold < speechThreshold`. -/
theorem update_invariant_amended (ps : List PartialVADOptions)
    (h : ∀ p ∈ ps, p.silenceThreshold = none ∧ p.speechThreshold = none) :
    (applyUpdates defaultVADOptions ps).silenceThreshold
      < (applyUpdates defaultVADOptions ps).speechThreshold := by
  obtain ⟨h1, h2⟩ := applyUpdates_thresholds defaultVADOptions ps h
  rw [h1, h2]
  decide

/-- Witness for the amended C9 at a concrete update sequence. -/
theorem update_invariant_amended_witness :
    (∀ p ∈ [({ rate := some 8000 } : PartialVADOptions)],
        p.silenceThreshold = none ∧ p.speechThreshold = none) ∧
    (applyUpdates defaultVADOptions [{ rate := some 8000 }]).silenceThreshold
      < (applyUpdates defaultVADOptions [{ rate := some 8000 }]).speechThreshold :=
  ⟨by decide, update_invariant_amended [{ rate := some 8000 }] (by decide)⟩

/-- Controller-scoped ONNX runtime state: whether the inference session has
been created, and the recurrent hidden tensor (`stateTensor`), `none` until
the session is first initialised.  The tensor's 2*128 float32 entries are
modelled as a list of 256 rationals. -/
structure CtrlState where
  sessionLoaded : Bool
  hidden : Option (List ℚ)
deriving DecidableEq

/-- Controller state at process start: no session, no tensor. -/
def freshCtrl : CtrlState := ⟨false, none⟩

/-- `initOnnx()`: returns immediately when the session already exists;
otherwise creates the session and sets the hidden tensor to 2*128 zeros. -/
def initOnnx (c : CtrlState) : CtrlState :=
  if c.sessionLoaded then c
  else { sessionLoaded := true, hidden := some (List.replicate 256 0) }

/-- `start()` followed by the run's inference calls: `initOnnx`, then the
hidden tensor is replaced by the model's output state on every processed
frame (the model itself is opaque, abstracted by `m`). -/
def startAndRun (m : List ℚ → List Int → List ℚ) (frames : List (List Int))
    (c : CtrlState) : CtrlState :=
  let c1 := initOnnx c
  { c1 with hidden := c1.hidden.map (fun h => frames.foldl m h) }

unseal Rat.add Rat.mul Rat.inv in
/-- Claim C2 counterexample: with a model whose output state differs from
zero, after a first `start()` that processes one frame and a `stop()`, the
second `start()` finds the session already loaded, so `initOnnx` returns
early and the hidden tensor before the first frame of the second run is the
previous run's final state, not zeros. -/
theorem hidden_reset_counterexample :
    (initOnnx (startAndRun (fun h _ => h.map (fun x => x + 1))
        [List.replicate 512 0] freshCtrl)).hidden
      ≠ some (List.replicate 256 (0 : ℚ)) := by
  decide

/-- Claim C2 (amended): only a `start()` that finds no session (the first one
in the process) initialises the hidden tensor to zeros; when the session is
already loaded, `initOnnx` leaves the controller state — including the hidden
tensor carried over from the previous run — completely unchanged. -/
theorem hidden_reset_amended (c : CtrlState) :
    (c.sessionLoaded = false →
      (initOnnx c).hidden = some (List.replicate 256 (0 : ℚ)) ∧
      (initOnnx c).sessionLoaded = true) ∧
    (c.sessionLoaded = true → initOnnx c = c) := by
  constructor
  · intro h
    rw [initOnnx, if_neg (by simp [h])]
    exact ⟨rfl, rfl⟩
  · intro h
    rw [initOnnx, if_pos (by simp [h])]

/-- Witness for the amended C2 at the fresh controller state. -/
theorem hidden_reset_amended_witness :
    (initOnnx freshCtrl).hidden = some (List.replicate 256 (0 : ℚ)) ∧
    (initOnnx freshCtrl).sessionLoaded = true :=
  (hidden_reset_amended freshCtrl).1 rfl

/-- Pipeline-scoped recorder state together with the externally observable
effects of a run.  `files` records the bytes of each WAV successfully
written, in order; `lastSegmentIndex` models `lastSegmentPath` by the index
`N` of the written `segment_{timestamp}_{N}.wav` (the timestamp is
wall-clock and not modelled); `framesProcessed` counts inference calls (the
opaque model's raw output for the n-th call is `oracle n`); and
`writeAttempts` counts `Bun.write` attempts, indexing the write-success
schedule. -/
structure PState where
  probBuffer : List ℚ
  speechFrames : Nat
  silenceFrames : Nat
  isRecording : Bool
  segmentBuffers : List (List Int)
  segmentIndex : Nat
  segmentsSaved : Nat
  lastSegmentIndex : Option Nat
  files : List (List Nat)
  framesProcessed : Nat
  writeAttempts : Nat
deriving DecidableEq

/-- Recorder state at `start()`. -/
def initPState : PState :=
  ⟨[], 0, 0, false, [], 0, 0, none, [], 0, 0⟩

/-- Push a raw probability, then drop the oldest entry once the window
exceeds `probAvgWindow = 5` (`probBuffer.push` followed by `shift`). -/
def pushTrim (pb : List ℚ) (q : ℚ) : List ℚ :=
  if 5 < (pb ++ [q]).length then (pb ++ [q]).tail else pb ++ [q]

/-- Arithmetic mean of the probability window. -/
def smoothed (pb : List ℚ) : ℚ :=
  pb.sum / (pb.length : ℚ)

/-- `stopRecording()`: a no-op unless recording; otherwise clear
`isRecording`, merge the buffered frames, clear the buffer, encode the WAV,
bump `segmentIndex`, and attempt the filesystem write; only after a
successful write are `segmentsSaved` and the last-segment path updated.  A
failing `Bun.write` raises after `isRecording`, `segmentBuffers` and
`segmentIndex` have already been mutated; the state at the throw point is
carried in the error branch. -/
def stopRecording (cfg : VADOptions) (wOk : Nat → Bool) (ps : PState) :
    Except PState PState :=
  if ps.isRecording = false then Except.ok ps
  else
    let merged := ps.segmentBuffers.flatten
    let ps1 : PState := { ps with
      isRecording := false
      segmentBuffers := []
      segmentIndex := ps.segmentIndex + 1 }
    if wOk ps1.writeAttempts then
      Except.ok { ps1 with
        writeAttempts := ps1.writeAttempts + 1
        files := ps1.files ++ [writeWav merged cfg.rate]
        segmentsSaved := ps1.segmentsSaved + 1
        lastSegmentIndex := some ps1.segmentIndex }
    else Except.error { ps1 with writeAttempts := ps1.writeAttempts + 1 }

/-- The `if (!isRecording)` block of `processFrame`: hysteresis arming of a
speech start (with `startRecording()` inlined: it clears the segment buffer
and sets `isRecording`). -/
def idleStep (cfg : VADOptions) (ps : PState) (prob : ℚ) : PState :=
  if ps.isRecording = false then
    if cfg.speechThreshold < prob then
      if cfg.requiredSpeechFrames ≤ ps.speechFrames + 1 then
        { ps with isRecording := true, segmentBuffers := [], speechFrames := 0 }
      else { ps with speechFrames := ps.speechFrames + 1 }
    else { ps with speechFrames := 0 }
  else ps

/-- The `if (isRecording)` block of `processFrame`: append the (copied)
frame to the segment, and flush via `stopRecording` on confirmed silence. -/
def recStep (cfg : VADOptions) (wOk : Nat → Bool) (ps : PState)
    (frame : List Int) (prob : ℚ) : Except PState PState :=
  if ps.isRecording then
    let ps2 : PState := { ps with segmentBuffers := ps.segmentBuffers ++ [frame] }
    if prob < cfg.silenceThreshold then
      if cfg.requiredSilenceFrames ≤ ps2.silenceFrames + 1 then
        stopRecording cfg wOk { ps2 with silenceFrames := 0 }
      else Except.ok { ps2 with silenceFrames := ps2.silenceFrames + 1 }
    else Except.ok { ps2 with silenceFrames := 0 }
  else Except.ok ps

/-- `processFrame(frame)` with the model's raw output probability supplied by
the caller (the inference itself is opaque): push and trim the probability
window, smooth, then run the two hysteresis blocks in source order. -/
def processFrame (cfg : VADOptions) (wOk : Nat → Bool) (ps : PState)
    (frame : List Int) (rawProb : ℚ) : Except PState PState :=
  let pb := pushTrim ps.probBuffer rawProb
  let prob := smoothed pb
  let ps0 : PState :=
    { ps with probBuffer := pb, framesProcessed := ps.framesProcessed + 1 }
  recStep cfg wOk (idleStep cfg ps0 prob) frame prob

lemma stopRecording_not_recording (cfg : VADOptions) (wOk : Nat → Bool) (ps : PState)
    (h : ps.isRecording = false) : stopRecording cfg wOk ps = Except.ok ps := by
  rw [stopRecording, if_pos h]

lemma bool_not_false {b : Bool} (h : ¬ b = false) : b = true := by
  cases b
  · exact absurd rfl h
  · rfl

lemma stopRecording_recording (cfg : VADOptions) (wOk : Nat → Bool) (ps : PState)
    (hrec : ps.isRecording = true) :
    stopRecording cfg wOk ps =
      if wOk ps.writeAttempts then
        Except.ok { ps with
          isRecording := false
          segmentBuffers := []
          segmentIndex := ps.segmentIndex + 1
          writeAttempts := ps.writeAttempts + 1
          files := ps.files ++ [writeWav ps.segmentBuffers.flatten cfg.rate]
          segmentsSaved := ps.segmentsSaved + 1
          lastSegmentIndex := some (ps.segmentIndex + 1) }
      else
        Except.error { ps with
          isRecording := false
          segmentBuffers := []
          segmentIndex := ps.segmentIndex + 1
          writeAttempts := ps.writeAttempts + 1 } := by
  rw [stopRecording, if_neg (by simp [hrec])]

lemma stopRecording_error_fields (cfg : VADOptions) (wOk : Nat → Bool) (ps e : PState)
    (h : stopRecording cfg wOk ps = Except.error e) :
    wOk ps.writeAttempts = false ∧ ps.isRecording = true ∧
    e.isRecording = false ∧ e.segmentBuffers = [] ∧
    e.segmentsSaved = ps.segmentsSaved ∧ e.lastSegmentIndex = ps.lastSegmentIndex ∧
    e.files = ps.files := by
  by_cases h1 : ps.isRecording = false
  · rw [stopRecording_not_recording cfg wOk ps h1] at h
    exact Except.noConfusion h
  · have hrec : ps.isRecording = true := bool_not_false h1
    rw [stopRecording_recording cfg wOk ps hrec] at h
    by_cases h2 : wOk ps.writeAttempts = true
    · rw [if_pos h2] at h
      exact Except.noConfusion h
    · have hw : wOk ps.writeAttempts = false := by
        cases hb : wOk ps.writeAttempts
        · rfl
        · exact absurd hb h2
      rw [if_neg h2] at h
      have he : e = { ps with
          isRecording := false
          segmentBuffers := []
          segmentIndex := ps.segmentIndex + 1
          writeAttempts := ps.writeAttempts + 1 } :=
        (Except.error.injEq _ _).mp h.symm
      rw [he]
      exact ⟨hw, hrec, rfl, rfl, rfl, rfl, rfl⟩

lemma stopRecording_ok_fields (cfg : VADOptions) (wOk : Nat → Bool) (ps s : PState)
    (hrec : ps.isRecording = true)
    (h : stopRecording cfg wOk ps = Except.ok s) :
    wOk ps.writeAttempts = true ∧ s.isRecording = false ∧ s.segmentBuffers = [] ∧
    s.segmentsSaved = ps.segmentsSaved + 1 ∧ s.lastSegmentIndex = some (ps.segmentIndex + 1) ∧
    s.files = ps.files ++ [writeWav ps.segmentBuffers.flatten cfg.rate] := by
  rw [stopRecording_recording cfg wOk ps hrec] at h
  by_cases h2 : wOk ps.writeAttempts = true
  · rw [if_pos h2] at h
    have hs : s = { ps with
        isRecording := false
        segmentBuffers := []
        segmentIndex := ps.segmentIndex + 1
        writeAttempts := ps.writeAttempts + 1
        files := ps.files ++ [writeWav ps.segmentBuffers.flatten cfg.rate]
        segmentsSaved := ps.segmentsSaved + 1
        lastSegmentIndex := some (ps.segmentIndex + 1) } :=
      (Except.ok.injEq _ _).mp h.symm
    rw [hs]
    exact ⟨h2, rfl, rfl, rfl, rfl, rfl⟩
  · rw [if_neg h2] at h
    exact Except.noConfusion h

/-- Claim C10: in `stopRecording` (`endSegment`), `isRecording` is cleared
and the frame buffer discarded before the write is attempted, while
`segmentsSaved` and the last-segment path are updated only after the write
completes.  Hence if the write throws, the status fields and the written
file list are updated. -/
theorem stopRecording_effect_order (cfg : VADOptions) (wOk : Nat → Bool) (ps : PState)
    (hrec : ps.isRecording = true) :
    (∀ e, stopRecording cfg wOk ps = Except.error e →
      e.isRecording = false ∧ e.segmentBuffers = [] ∧
      e.segmentsSaved = ps.segmentsSaved ∧ e.lastSegmentIndex = ps.lastSegmentIndex ∧
      e.files = ps.files) ∧
    (∀ s, stopRecording cfg wOk ps = Except.ok s →
      s.isRecording = false ∧ s.segmentBuffers = [] ∧
      s.segmentsSaved = ps.segmentsSaved + 1 ∧
      s.lastSegmentIndex = some (ps.segmentIndex + 1) ∧
      s.files = ps.files ++ [writeWav ps.segmentBuffers.flatten cfg.rate]) := by
  constructor
  · intro e he
    have := stopRecording_error_fields cfg wOk ps e he
    exact ⟨this.2.2.1, this.2.2.2.1, this.2.2.2.2.1, this.2.2.2.2.2.1, this.2.2.2.2.2.2⟩
  · intro s hs
    have := stopRecording_ok_fields cfg wOk ps s hrec hs
    exact this.2

/-- A concrete recording state used by the witnesses: one buffered frame of
512 zero samples, with one prior segment already saved. -/
def witnessRecState : PState :=
  { initPState with
    isRecording := true
    segmentBuffers := [List.replicate 512 0]
    segmentIndex := 1
    segmentsSaved := 1
    lastSegmentIndex := some 1
    framesProcessed := 40 }

/-- Witness for C10 at a concrete recording state and a failing write
schedule. -/
theorem stopRecording_effect_order_witness :
    witnessRecState.isRecording = true ∧
    ((∀ e, stopRecording defaultVADOptions (fun _ => false) witnessRecState = Except.error e →
      e.isRecording = false ∧ e.segmentBuffers = [] ∧
      e.segmentsSaved = witnessRecState.segmentsSaved ∧
      e.lastSegmentIndex = witnessRecState.lastSegmentIndex ∧
      e.files = witnessRecState.files) ∧
    (∀ s, stopRecording defaultVADOptions (fun _ => false) witnessRecState = Except.ok s →
      s.isRecording = false ∧ s.segmentBuffers = [] ∧
      s.segmentsSaved = witnessRecState.segmentsSaved + 1 ∧
      s.lastSegmentIndex = some (witnessRecState.segmentIndex + 1) ∧
      s.files = witnessRecState.files
        ++ [writeWav witnessRecState.segmentBuffers.flatten defaultVADOptions.rate])) :=
  ⟨rfl, stopRecording_effect_order defaultVADOptions (fun _ => false) witnessRecState rfl⟩

/-- Fuel-indexed inner `while (sampleQueue.length >= 512)` loop of the
pipeline task: take the 512-sample frame at the front, run inference (the
raw probability of the n-th inference of the run is `oracle n`), process the
frame, drop it from the queue.  An exception from `processFrame` aborts the
loop. -/
def processQueueAux (cfg : VADOptions) (wOk : Nat → Bool) (oracle : Nat → ℚ) :
    Nat → List Int → PState → Except PState (List Int × PState)
  | 0, q, ps => Except.ok (q, ps)
  | fuel + 1, q, ps =>
    if 512 ≤ q.length then
      match processFrame cfg wOk ps (q.take 512) (oracle ps.framesProcessed) with
      | Except.error e => Except.error e
      | Except.ok ps1 => processQueueAux cfg wOk oracle fuel (q.drop 512) ps1
    else Except.ok (q, ps)

/-- The inner frame loop with adequate fuel. -/
def processQueue (cfg : VADOptions) (wOk : Nat → Bool) (oracle : Nat → ℚ)
    (q : List Int) (ps : PState) : Except PState (List Int × PState) :=
  processQueueAux cfg wOk oracle q.length q ps

/-- One `for await` iteration over a byte chunk: framing exactly as in the
loop body, then the inner frame-processing loop. -/
def processChunk (cfg : VADOptions) (wOk : Nat → Bool) (oracle : Nat → ℚ)
    (st : FramerState × PState) (chunk : List Nat) :
    Except PState (FramerState × PState) :=
  let combined := st.1.leftover ++ chunk
  let evenLen := combined.length - combined.length % 2
  let usable := combined.take evenLen
  let rest := combined.drop evenLen
  let q := st.1.sampleQueue ++ bytesToInt16 usable
  match processQueue cfg wOk oracle q st.2 with
  | Except.error e => Except.error e
  | Except.ok qp => Except.ok (⟨rest, qp.1⟩, qp.2)

/-- The `for await` loop over the chunks read before end-of-stream or abort;
an exception skips all remaining chunks. -/
def runChunks (cfg : VADOptions) (wOk : Nat → Bool) (oracle : Nat → ℚ) :
    FramerState × PState → List (List Nat) → Except PState (FramerState × PState)
  | st, [] => Except.ok st
  | st, c :: cs =>
    match processChunk cfg wOk oracle st c with
    | Except.error e => Except.error e
    | Except.ok st1 => runChunks cfg wOk oracle st1 cs

/-- Loop state at `start()`. -/
def initLoop : FramerState × PState := (initFramer, initPState)

/-- The `finally` clause of the pipeline task: a final `stopRecording`
attempt whose own failure is swallowed (`try { await stopRecording() }
catch {}`). -/
def finalize (cfg : VADOptions) (wOk : Nat → Bool) (ps : PState) : PState :=
  match stopRecording cfg wOk ps with
  | Except.ok ps1 => ps1
  | Except.error ps1 => ps1

/-- A complete run of the pipeline task over the chunks that were read
before end-of-stream, error or abort: the `for await` loop, then the
`finally` clause.  The first component is the `running` flag, false once the
loop has finished (cleared in the `finally` clause and again by `stop()`). -/
def runSystem (cfg : VADOptions) (wOk : Nat → Bool) (oracle : Nat → ℚ)
    (cs : List (List Nat)) : Bool × PState :=
  match runChunks cfg wOk oracle initLoop cs with
  | Except.ok st => (false, finalize cfg wOk st.2)
  | Except.error e => (false, finalize cfg wOk e)

/-- Whether the `for await` loop over `cs` raised. -/
def runFailed (cfg : VADOptions) (wOk : Nat → Bool) (oracle : Nat → ℚ)
    (cs : List (List Nat)) : Bool :=
  match runChunks cfg wOk oracle initLoop cs with
  | Except.error _ => true
  | Except.ok _ => false

lemma recStep_error_isRecording (cfg : VADOptions) (wOk : Nat → Bool) (ps : PState)
    (f : List Int) (prob : ℚ) (e : PState)
    (h : recStep cfg wOk ps f prob = Except.error e) : e.isRecording = false := by
  simp only [recStep] at h
  split at h
  · split at h
    · split at h
      · exact (stopRecording_error_fields _ _ _ _ h).2.2.1
      · exact Except.noConfusion h
    · exact Except.noConfusion h
  · exact Except.noConfusion h

lemma processFrame_error_isRecording (cfg : VADOptions) (wOk : Nat → Bool) (ps : PState)
    (f : List Int) (q : ℚ) (e : PState)
    (h : processFrame cfg wOk ps f q = Except.error e) : e.isRecording = false := by
  simp only [processFrame] at h
  exact recStep_error_isRecording _ _ _ _ _ _ h

lemma processQueueAux_error_isRecording (cfg : VADOptions) (wOk : Nat → Bool)
    (oracle : Nat → ℚ) :
    ∀ (fuel : Nat) (q : List Int) (ps e : PState),
      processQueueAux cfg wOk oracle fuel q ps = Except.error e → e.isRecording = false
  | 0, _, _, _, h => Except.noConfusion h
  | fuel + 1, q, ps, e, h => by
    simp only [processQueueAux] at h
    split at h
    · split at h
      · rename_i e1 heq
        have he : e1 = e := (Except.error.injEq _ _).mp h
        exact he ▸ processFrame_error_isRecording _ _ _ _ _ _ heq
      · exact processQueueAux_error_isRecording cfg wOk oracle fuel _ _ e h
    · exact Except.noConfusion h

lemma processChunk_error_isRecording (cfg : VADOptions) (wOk : Nat → Bool)
    (oracle : Nat → ℚ) (st : FramerState × PState) (c : List Nat) (e : PState)
    (h : processChunk cfg wOk oracle st c = Except.error e) : e.isRecording = false := by
  simp only [processChunk, processQueue] at h
  split at h
  · rename_i e1 heq
    have he : e1 = e := (Except.error.injEq _ _).mp h
    exact he ▸ processQueueAux_error_isRecording cfg wOk oracle _ _ _ e1 heq
  · exact Except.noConfusion h

lemma runChunks_error_isRecording (cfg : VADOptions) (wOk : Nat → Bool)
    (oracle : Nat → ℚ) :
    ∀ (cs : List (List Nat)) (st : FramerState × PState) (e : PState),
      runChunks cfg wOk oracle st cs = Except.error e → e.isRecording = false
  | [], _, _, h => Except.noConfusion h
  | c :: cs, st, e, h => by
    simp only [runChunks] at h
    split at h
    · rename_i e1 heq
      have he : e1 = e := (Except.error.injEq _ _).mp h
      exact he ▸ processChunk_error_isRecording cfg wOk oracle st c e1 heq
    · rename_i st1 heq
      exact runChunks_error_isRecording cfg wOk oracle cs st1 e h

lemma runChunks_append (cfg : VADOptions) (wOk : Nat → Bool) (oracle : Nat → ℚ) :
    ∀ (cs1 cs2 : List (List Nat)) (st : FramerState × PState),
      runChunks cfg wOk oracle st (cs1 ++ cs2)
        = match runChunks cfg wOk oracle st cs1 with
          | Except.error e => Except.error e
          | Except.ok st1 => runChunks cfg wOk oracle st1 cs2
  | [], _, _ => rfl
  | c :: cs1, cs2, st => by
    show (match processChunk cfg wOk oracle st c with
          | Except.error e => Except.error e
          | Except.ok st1 => runChunks cfg wOk oracle st1 (cs1 ++ cs2)) = _
    cases hpc : processChunk cfg wOk oracle st c with
    | error e => simp only [runChunks, hpc]
    | ok st1 =>
      simp only [runChunks, hpc, runChunks_append cfg wOk oracle cs1 cs2 st1]

lemma finalize_not_recording (cfg : VADOptions) (wOk : Nat → Bool) (ps : PState)
    (h : ps.isRecording = false) : finalize cfg wOk ps = ps := by
  simp only [finalize, stopRecording_not_recording cfg wOk ps h]

/-- Claim C8 (amended): a failing WAV write during a mid-run `endSegment`
propagates out of `processFrame` and terminates the `for await` loop: chunks
delivered afterwards have no effect at all (the run's outcome equals the
outcome without them), the segment is lost, the final flush in the `finally`
clause is a no-op (recording already stopped), and `running` ends false.
The pipeline does not continue. -/
theorem wav_write_failure_stops_pipeline (cfg : VADOptions) (wOk : Nat → Bool)
    (oracle : Nat → ℚ) (cs1 cs2 : List (List Nat))
    (h : runFailed cfg wOk oracle cs1 = true) :
    runSystem cfg wOk oracle (cs1 ++ cs2) = runSystem cfg wOk oracle cs1 ∧
    (runSystem cfg wOk oracle cs1).1 = false ∧
    (runSystem cfg wOk oracle cs1).2.isRecording = false := by
  obtain ⟨e, he⟩ : ∃ e, runChunks cfg wOk oracle initLoop cs1 = Except.error e := by
    revert h
    rw [runFailed]
    cases hrc : runChunks cfg wOk oracle initLoop cs1 with
    | error e => exact fun _ => ⟨e, rfl⟩
    | ok st => exact fun hh => absurd hh (by simp)
  have hrec := runChunks_error_isRecording cfg wOk oracle cs1 initLoop e he
  have happ := runChunks_append cfg wOk oracle cs1 cs2 initLoop
  rw [he] at happ
  refine ⟨?_, ?_, ?_⟩
  · simp only [runSystem, happ, he]
  · simp only [runSystem, he]
  · simp only [runSystem, he, finalize_not_recording cfg wOk e hrec, hrec]

/-- A configuration with quick hysteresis, used by concrete runs: start after
one loud frame, flush after one quiet frame. -/
def cfgQuick : VADOptions :=
  { defaultVADOptions with
    speechThreshold := 1 / 2
    silenceThreshold := 1 / 4
    requiredSpeechFrames := 1
    requiredSilenceFrames := 1 }

/-- A probability trace: inference 0 returns 1, all later inferences 0. -/
def oracleSpikeFirst : Nat → ℚ := fun n => if n = 0 then 1 else 0

/-- `n` chunks of 1024 zero bytes (one 512-sample frame per chunk). -/
def zeroChunks (n : Nat) : List (List Nat) := List.replicate n (List.replicate 1024 0)

set_option maxRecDepth 40000 in
unseal Rat.add Rat.mul Rat.inv in
/-- Claim C8 counterexample: with `cfgQuick` and `oracleSpikeFirst`, frame 0
starts a segment and frame 4 confirms silence (the five-frame mean finally
drops below 1/4), so `endSegment` runs at the fifth inference; its write
fails.  Seven one-frame chunks are supplied, yet the run ends with only 5
frames processed and no file written: the two remaining chunks were never
framed or inferred, so the pipeline did not continue past the failed write. -/
theorem wav_write_failure_counterexample :
    (runSystem cfgQuick (fun _ => false) oracleSpikeFirst (zeroChunks 7)).2.framesProcessed = 5 ∧
    (runSystem cfgQuick (fun _ => false) oracleSpikeFirst (zeroChunks 7)).2.files = [] ∧
    (runSystem cfgQuick (fun _ => false) oracleSpikeFirst (zeroChunks 7)).2.segmentsSaved = 0 := by
  refine ⟨?_, ?_, ?_⟩ <;> decide

set_option maxRecDepth 40000 in
unseal Rat.add Rat.mul Rat.inv in
/-- Witness for the amended C8 at a concrete failing run. -/
theorem wav_write_failure_stops_pipeline_witness :
    runFailed cfgQuick (fun _ => false) oracleSpikeFirst (zeroChunks 5) = true ∧
    (runSystem cfgQuick (fun _ => false) oracleSpikeFirst (zeroChunks 5 ++ zeroChunks 2)
        = runSystem cfgQuick (fun _ => false) oracleSpikeFirst (zeroChunks 5) ∧
      (runSystem cfgQuick (fun _ => false) oracleSpikeFirst (zeroChunks 5)).1 = false ∧
      (runSystem cfgQuick (fun _ => false) oracleSpikeFirst (zeroChunks 5)).2.isRecording = false) :=
  ⟨by decide, wav_write_failure_stops_pipeline cfgQuick (fun _ => false) oracleSpikeFirst
    (zeroChunks 5) (zeroChunks 2) (by decide)⟩

/-- The all-writes-succeed schedule. -/
def okWrites : Nat → Bool := fun _ => true

lemma stopRecording_okWrites_ok (cfg : VADOptions) (ps : PState) :
    ∃ s, stopRecording cfg okWrites ps = Except.ok s := by
  by_cases h : ps.isRecording = false
  · exact ⟨ps, stopRecording_not_recording cfg okWrites ps h⟩
  · have hrec := bool_not_false h
    rw [stopRecording_recording cfg okWrites ps hrec]
    exact ⟨_, if_pos rfl⟩

/-- The recorder-state effect of a single frame under `okWrites` (total
form; the error branch is dead code). -/
def okStep (cfg : VADOptions) (oracle : Nat → ℚ) (ps : PState) (frame : List Int) : PState :=
  match processFrame cfg okWrites ps frame (oracle ps.framesProcessed) with
  | Except.ok ps1 => ps1
  | Except.error ps1 => ps1

lemma recStep_okWrites_ok (cfg : VADOptions) (ps : PState) (f : List Int) (prob : ℚ) :
    ∃ s, recStep cfg okWrites ps f prob = Except.ok s := by
  simp only [recStep]
  split
  · split
    · split
      · exact stopRecording_okWrites_ok cfg _
      · exact ⟨_, rfl⟩
    · exact ⟨_, rfl⟩
  · exact ⟨_, rfl⟩

lemma processFrame_okWrites_eq (cfg : VADOptions) (oracle : Nat → ℚ)
    (ps : PState) (f : List Int) :
    processFrame cfg okWrites ps f (oracle ps.framesProcessed)
      = Except.ok (okStep cfg oracle ps f) := by
  obtain ⟨s, hs⟩ : ∃ s, processFrame cfg okWrites ps f (oracle ps.framesProcessed)
      = Except.ok s := by
    simp only [processFrame]
    exact recStep_okWrites_ok cfg _ f _
  simp only [okStep, hs]

lemma processQueueAux_okWrites (cfg : VADOptions) (oracle : Nat → ℚ) :
    ∀ (fuel : Nat) (q : List Int) (ps : PState), q.length ≤ fuel →
      processQueueAux cfg okWrites oracle fuel q ps
        = Except.ok ((emitFrames q).2, List.foldl (okStep cfg oracle) ps (emitFrames q).1)
  | 0, q, ps, hf => by
    have hq : q = [] := List.eq_nil_of_length_eq_zero (by omega)
    subst hq
    rfl
  | fuel + 1, q, ps, hf => by
    by_cases h : 512 ≤ q.length
    · have hrec := processQueueAux_okWrites cfg oracle fuel (q.drop 512)
        (okStep cfg oracle ps (q.take 512))
        (by simp only [List.length_drop]; omega)
      simp only [processQueueAux, if_pos h, processFrame_okWrites_eq cfg oracle ps (q.take 512),
        hrec, emitFrames_eq_pos h, List.foldl_cons]
    · simp only [processQueueAux, if_neg h, emitFrames_eq_neg h, List.foldl_nil]

lemma processChunk_okWrites (cfg : VADOptions) (oracle : Nat → ℚ)
    (st : FramerState × PState) (c : List Nat) :
    processChunk cfg okWrites oracle st c
      = Except.ok ((feedChunk st.1 c).1,
          List.foldl (okStep cfg oracle) st.2 (feedChunk st.1 c).2) := by
  simp only [processChunk, processQueue, feedChunk]
  rw [processQueueAux_okWrites cfg oracle _ _ _ (Nat.le_refl _)]

lemma runChunks_okWrites (cfg : VADOptions) (oracle : Nat → ℚ) :
    ∀ (cs : List (List Nat)) (st : FramerState × PState),
      runChunks cfg okWrites oracle st cs
        = Except.ok ((feedChunks st.1 cs).1,
            List.foldl (okStep cfg oracle) st.2 (feedChunks st.1 cs).2)
  | [], st => rfl
  | c :: cs, st => by
    simp only [runChunks, processChunk_okWrites cfg oracle st c,
      runChunks_okWrites cfg oracle cs
        ((feedChunk st.1 c).1, List.foldl (okStep cfg oracle) st.2 (feedChunk st.1 c).2)]
    simp only [feedChunks, List.foldl_append]

/-- The loop state after the `for await` loop under `okWrites` (which never
raises; the error branch is dead code kept for totality). -/
def pipeAfter (cfg : VADOptions) (oracle : Nat → ℚ) (cs : List (List Nat)) :
    FramerState × PState :=
  match runChunks cfg okWrites oracle initLoop cs with
  | Except.ok st => st
  | Except.error e => (initFramer, e)

lemma pipeAfter_eq (cfg : VADOptions) (oracle : Nat → ℚ) (cs : List (List Nat)) :
    pipeAfter cfg oracle cs
      = ((feedChunks initFramer cs).1,
         List.foldl (okStep cfg oracle) initPState (feedChunks initFramer cs).2) := by
  simp only [pipeAfter, runChunks_okWrites cfg oracle cs initLoop]
  rfl

lemma idleStep_rec (cfg : VADOptions) (ps : PState) (prob : ℚ)
    (h : ps.isRecording = true) : idleStep cfg ps prob = ps := by
  rw [idleStep, if_neg (by simp [h])]

lemma idleStep_start_buffers (cfg : VADOptions) (ps : PState) (prob : ℚ)
    (h : ps.isRecording = false)
    (hstart : (idleStep cfg ps prob).isRecording = true) :
    (idleStep cfg ps prob).segmentBuffers = [] := by
  rw [idleStep, if_pos h] at hstart ⊢
  by_cases h1 : cfg.speechThreshold < prob
  · rw [if_pos h1] at hstart ⊢
    by_cases h2 : cfg.requiredSpeechFrames ≤ ps.speechFrames + 1
    · rw [if_pos h2]
    · rw [if_neg h2] at hstart
      simp [h] at hstart
  · rw [if_neg h1] at hstart
    simp [h] at hstart

lemma recStep_ok_rec_out (cfg : VADOptions) (wOk : Nat → Bool) (ps : PState)
    (f : List Int) (prob : ℚ) (s : PState) (hrec : ps.isRecording = true)
    (h : recStep cfg wOk ps f prob = Except.ok s) (hout : s.isRecording = true) :
    s.segmentBuffers = ps.segmentBuffers ++ [f] := by
  simp only [recStep, if_pos hrec] at h
  split at h
  · split at h
    · have hfields := stopRecording_ok_fields cfg wOk _ s (by exact hrec) h
      rw [hfields.2.1] at hout
      exact absurd hout (by simp)
    · have hs := (Except.ok.injEq _ _).mp h
      rw [← hs]
  · have hs := (Except.ok.injEq _ _).mp h
    rw [← hs]

lemma recStep_out_buffers (cfg : VADOptions) (wOk : Nat → Bool) (ps : PState)
    (f : List Int) (prob : ℚ) (s : PState)
    (h : recStep cfg wOk ps f prob = Except.ok s) (hout : s.isRecording = true) :
    ps.isRecording = true ∧ s.segmentBuffers = ps.segmentBuffers ++ [f] := by
  by_cases hrec : ps.isRecording = true
  · exact ⟨hrec, recStep_ok_rec_out cfg wOk ps f prob s hrec h hout⟩
  · have hf : ps.isRecording = false := by
      cases hb : ps.isRecording
      · rfl
      · exact absurd hb hrec
    rw [recStep, if_neg (by simp [hf])] at h
    have hs := (Except.ok.injEq _ _).mp h
    rw [← hs] at hout
    exact absurd (hf ▸ hout) (by simp [hf])

lemma okStep_buffers (cfg : VADOptions) (oracle : Nat → ℚ) (ps : PState) (f : List Int)
    (h2 : (okStep cfg oracle ps f).isRecording = true) :
    (ps.isRecording = true ∧
      (okStep cfg oracle ps f).segmentBuffers = ps.segmentBuffers ++ [f]) ∨
    (ps.isRecording = false ∧ (okStep cfg oracle ps f).segmentBuffers = [f]) := by
  have hpf := processFrame_okWrites_eq cfg oracle ps f
  simp only [processFrame] at hpf
  have hmain := recStep_out_buffers cfg okWrites _ f _ _ hpf h2
  by_cases h1 : ps.isRecording = true
  · left
    refine ⟨h1, ?_⟩
    rw [hmain.2, idleStep_rec cfg _ _ (by exact h1)]
  · right
    have hf0 : ps.isRecording = false := by
      cases hb : ps.isRecording
      · rfl
      · exact absurd hb h1
    refine ⟨hf0, ?_⟩
    rw [hmain.2, idleStep_start_buffers cfg _ _ (by exact hf0) hmain.1]
    rfl

/-- Recorder state after the first `n` frames of the run, frames from `F`,
raw probabilities from the oracle. -/
def frameStateAt (cfg : VADOptions) (oracle : Nat → ℚ) (F : List (List Int)) (n : Nat) :
    PState :=
  List.foldl (okStep cfg oracle) initPState (F.take n)

lemma frameStateAt_succ (cfg : VADOptions) (oracle : Nat → ℚ) (F : List (List Int))
    (n : Nat) (hn : n < F.length) :
    frameStateAt cfg oracle F (n + 1)
      = okStep cfg oracle (frameStateAt cfg oracle F n) (F.get ⟨n, hn⟩) := by
  rw [frameStateAt, frameStateAt, List.take_succ, List.getElem?_eq_getElem hn,
    List.foldl_append]
  rfl

lemma take_succ_drop {α : Type} (F : List α) (i N : Nat) (hiN : i ≤ N) (hn : N < F.length) :
    (F.take (N + 1)).drop i = (F.take N).drop i ++ [F.get ⟨N, hn⟩] := by
  rw [List.take_succ, List.getElem?_eq_getElem hn, List.drop_append_eq_append_drop]
  have hlen : (F.take N).length = N := by
    rw [List.length_take]
    omega
  rw [hlen]
  have h0 : i - N = 0 := by omega
  rw [h0]
  rfl

theorem seg_characterization (cfg : VADOptions) (oracle : Nat → ℚ) (F : List (List Int)) :
    ∀ N, N ≤ F.length → (frameStateAt cfg oracle F N).isRecording = true →
      ∃ i, i < N ∧ (frameStateAt cfg oracle F i).isRecording = false ∧
        (∀ j, i < j → j ≤ N → (frameStateAt cfg oracle F j).isRecording = true) ∧
        (frameStateAt cfg oracle F N).segmentBuffers = (F.take N).drop i
  | 0, _, hrec => by
    simp [frameStateAt, initPState] at hrec
  | N + 1, hN, hrec => by
    have hn : N < F.length := by omega
    have hsucc := frameStateAt_succ cfg oracle F N hn
    rw [hsucc] at hrec
    rcases okStep_buffers cfg oracle (frameStateAt cfg oracle F N) (F.get ⟨N, hn⟩) hrec
      with hcase | hcase
    · obtain ⟨i, hiN, hidle, hall, hbuf⟩ :=
        seg_characterization cfg oracle F N (by omega) hcase.1
      refine ⟨i, by omega, hidle, ?_, ?_⟩
      · intro j hij hj
        by_cases hje : j = N + 1
        · rw [hje, hsucc]
          exact hrec
        · exact hall j hij (by omega)
      · rw [hsucc, hcase.2, hbuf, take_succ_drop F i N (by omega) hn]
    · refine ⟨N, by omega, hcase.1, ?_, ?_⟩
      · intro j hij hj
        have hje : j = N + 1 := by omega
        rw [hje, hsucc]
        exact hrec
      · rw [hsucc, hcase.2, take_succ_drop F N N (Nat.le_refl N) hn]
        have hnil : (F.take N).drop N = [] := by
          apply List.drop_eq_nil_of_le
          rw [List.length_take]
          omega
        rw [hnil]
        rfl

/-- The C1 post-state property: after `stop()`, `running` is false, exactly
one more WAV file is written, and its samples are the concatenation of the
frames appended since the most recent speech-start — the frames of the run
from the last Idle-to-Recording transition onwards (no later transition
exists). -/
def flushOnStopConcl (cfg : VADOptions) (oracle : Nat → ℚ) (cs : List (List Nat)) : Prop :=
  (runSystem cfg okWrites oracle cs).1 = false ∧
  ∃ i, i < ((feedChunks initFramer cs).2).length ∧
    (frameStateAt cfg oracle (feedChunks initFramer cs).2 i).isRecording = false ∧
    (∀ j, i < j → j ≤ ((feedChunks initFramer cs).2).length →
      (frameStateAt cfg oracle (feedChunks initFramer cs).2 j).isRecording = true) ∧
    (pipeAfter cfg oracle cs).2.segmentBuffers = ((feedChunks initFramer cs).2).drop i ∧
    (runSystem cfg okWrites oracle cs).2.files
      = (pipeAfter cfg oracle cs).2.files
        ++ [writeWav ((((feedChunks initFramer cs).2).drop i).flatten) cfg.rate]

/-- Claim C1: if `stop()` is invoked while the hysteresis state machine is
in Recording, then (with the mic stream read up to `cs` and all writes
succeeding) the shutdown path writes exactly one WAV for the in-progress
segment, containing all frames appended since the most recent speech-start,
and `running` is false after `stop()` returns. -/
theorem flush_on_stop (cfg : VADOptions) (oracle : Nat → ℚ) (cs : List (List Nat))
    (h : (pipeAfter cfg oracle cs).2.isRecording = true) :
    flushOnStopConcl cfg oracle cs := by
  have hpipe := pipeAfter_eq cfg oracle cs
  have hrun : runChunks cfg okWrites oracle initLoop cs
      = Except.ok (pipeAfter cfg oracle cs) := by
    rw [runChunks_okWrites cfg oracle cs initLoop, hpipe]
    rfl
  have hmid : (pipeAfter cfg oracle cs).2
      = frameStateAt cfg oracle (feedChunks initFramer cs).2
          ((feedChunks initFramer cs).2).length := by
    rw [hpipe, frameStateAt, List.take_length]
  have hsys : runSystem cfg okWrites oracle cs
      = (false, finalize cfg okWrites (pipeAfter cfg oracle cs).2) := by
    simp only [runSystem, hrun]
  have hrecN : (frameStateAt cfg oracle (feedChunks initFramer cs).2
      ((feedChunks initFramer cs).2).length).isRecording = true := by
    rw [← hmid]
    exact h
  obtain ⟨i, hiN, hidle, hall, hbuf⟩ :=
    seg_characterization cfg oracle (feedChunks initFramer cs).2
      ((feedChunks initFramer cs).2).length (Nat.le_refl _) hrecN
  rw [List.take_length] at hbuf
  have hmb : (pipeAfter cfg oracle cs).2.segmentBuffers
      = ((feedChunks initFramer cs).2).drop i := by
    rw [hmid]
    exact hbuf
  obtain ⟨s, hs⟩ := stopRecording_okWrites_ok cfg (pipeAfter cfg oracle cs).2
  have hfin : finalize cfg okWrites (pipeAfter cfg oracle cs).2 = s := by
    simp only [finalize, hs]
  have hfields := stopRecording_ok_fields cfg okWrites _ s h hs
  refine ⟨by rw [hsys], i, hiN, hidle, hall, hmb, ?_⟩
  rw [hsys]
  show (finalize cfg okWrites (pipeAfter cfg oracle cs).2).files = _
  rw [hfin, hfields.2.2.2.2.2, hmb]

/-- A probability trace that is loud on every inference. -/
def oracleLoud : Nat → ℚ := fun _ => 1

set_option maxRecDepth 40000 in
unseal Rat.add Rat.mul Rat.inv in
/-- Witness for C1 at a concrete run: two one-frame chunks of a loud stream
drive the machine into Recording, and stopping there flushes the segment. -/
theorem flush_on_stop_witness :
    (pipeAfter cfgQuick oracleLoud (zeroChunks 2)).2.isRecording = true ∧
    flushOnStopConcl cfgQuick oracleLoud (zeroChunks 2) :=
  ⟨by decide, flush_on_stop cfgQuick oracleLoud (zeroChunks 2) (by decide)⟩

/-- A probability-trace harness for the hysteresis machine: each step
processes one fixed all-zero frame under `okWrites` (the frame content and
the write schedule are irrelevant to the Idle/Recording transitions studied
here). -/
def probStep (cfg : VADOptions) (ps : PState) (q : ℚ) : Except PState PState :=
  processFrame cfg okWrites ps (List.replicate 512 0) q

/-- Run the machine over a synthetic raw-probability trace. -/
def runProbs (cfg : VADOptions) : PState → List ℚ → Except PState PState
  | ps, [] => Except.ok ps
  | ps, q :: qs =>
    match probStep cfg ps q with
    | Except.error _ => Except.error ps
    | Except.ok ps1 => runProbs cfg ps1 qs

/-- True iff the machine is out of Recording after every step of the trace
(and no step raises). -/
def neverRecB (cfg : VADOptions) : PState → List ℚ → Bool
  | _, [] => true
  | ps, q :: qs =>
    match probStep cfg ps q with
    | Except.error _ => false
    | Except.ok ps1 => !ps1.isRecording && neverRecB cfg ps1 qs

/-- Whether the run ended in Recording (false when it raised). -/
def recOutcome : Except PState PState → Bool
  | Except.ok ps => ps.isRecording
  | Except.error _ => false

unseal Rat.add Rat.mul Rat.inv in
/-- Claim C5 counterexample: with the default configuration
(`requiredSpeechFrames = 2`), the trace `[0.05, 0.96, 0.05]` — a single
frame above `speechThreshold` surrounded by frames exactly at
`silenceThreshold` — drives the machine from Idle into Recording: the short
smoothing window at trace start keeps the mean above 0.35 on two
consecutive frames. -/
theorem hysteresis_stray_spike_counterexample :
    defaultVADOptions.requiredSpeechFrames = 2 ∧
    recOutcome (runProbs defaultVADOptions initPState
      [1 / 20, 24 / 25, 1 / 20]) = true := by
  refine ⟨rfl, ?_⟩
  decide

/-- The probability-window shapes reachable while feeding
`silenceThreshold`-level values around one spike `v`: either all-silence, or
a window holding the spike once among three or four silence entries. -/
def probBufGood (s v : ℚ) (pb : List ℚ) : Prop :=
  (∃ n, n ≤ 5 ∧ pb = List.replicate n s) ∨
  (∃ i j, 3 ≤ i + j ∧ i + j ≤ 4 ∧
    pb = List.replicate i s ++ v :: List.replicate j s)

lemma sum_replicate_q (n : Nat) (x : ℚ) : (List.replicate n x).sum = n * x := by
  induction n with
  | zero => simp
  | succ m ih =>
    rw [List.replicate_succ, List.sum_cons, ih]
    push_cast
    ring

lemma smoothed_replicate (n : Nat) (s : ℚ) (hn : 1 ≤ n) :
    smoothed (List.replicate n s) = s := by
  rw [smoothed, sum_replicate_q, List.length_replicate]
  have hne : (n : ℚ) ≠ 0 := by
    positivity
  field_simp

lemma smoothed_mixed (i j : Nat) (s v : ℚ) :
    smoothed (List.replicate i s ++ v :: List.replicate j s)
      = (((i + j : Nat) : ℚ) * s + v) / (((i + j : Nat) : ℚ) + 1) := by
  rw [smoothed, List.sum_append, List.sum_cons, sum_replicate_q, sum_replicate_q,
    List.length_append, List.length_cons, List.length_replicate, List.length_replicate]
  have hnum : (i : ℚ) * s + (v + (j : ℚ) * s) = ((i + j : Nat) : ℚ) * s + v := by
    push_cast
    ring
  have hden : ((i + (j + 1) : Nat) : ℚ) = ((i + j : Nat) : ℚ) + 1 := by
    push_cast
    ring
  rw [hnum, hden]

lemma mixed_mean_le (s v t : ℚ) (k : Nat) (h3 : 3 ≤ k) (h4 : k ≤ 4)
    (hst : s < t) (hv : 3 * s + v ≤ 4 * t) :
    ((k : ℚ) * s + v) / ((k : ℚ) + 1) ≤ t := by
  rw [div_le_iff₀ (by positivity)]
  interval_cases k
  · push_cast
    linarith
  · push_cast
    linarith

lemma pushTrim_replicate (n : Nat) (s : ℚ) (hn : n ≤ 5) :
    pushTrim (List.replicate n s) s = List.replicate (min (n + 1) 5) s := by
  rw [pushTrim]
  have hre : List.replicate n s ++ [s] = List.replicate (n + 1) s :=
    (List.replicate_succ' n s).symm
  rw [hre, List.length_replicate]
  by_cases h : 5 < n + 1
  · rw [if_pos h]
    have hn5 : n = 5 := by omega
    subst hn5
    rfl
  · rw [if_neg h]
    have hm : min (n + 1) 5 = n + 1 := by omega
    rw [hm]

lemma append_s_mixed (i j : Nat) (s v : ℚ) :
    (List.replicate i s ++ v :: List.replicate j s) ++ [s]
      = List.replicate i s ++ v :: List.replicate (j + 1) s := by
  rw [List.append_assoc, List.cons_append, (List.replicate_succ' j s).symm]

lemma pushTrim_spike (n : Nat) (s v : ℚ) (h3 : 3 ≤ n) (h5 : n ≤ 5) :
    pushTrim (List.replicate n s) v
      = List.replicate (min n 4) s ++ v :: List.replicate 0 s := by
  rw [pushTrim]
  simp only [List.length_append, List.length_replicate, List.length_cons, List.length_nil]
  by_cases h : 5 < n + 1
  · rw [if_pos (by simpa using h)]
    have hn5 : n = 5 := by omega
    subst hn5
    rfl
  · rw [if_neg (by simpa using h)]
    have hm : min n 4 = n := by omega
    rw [hm]
    rfl

lemma pushTrim_mixed_small (i j : Nat) (s v : ℚ) (hsum : i + j ≤ 3) :
    pushTrim (List.replicate i s ++ v :: List.replicate j s) s
      = List.replicate i s ++ v :: List.replicate (j + 1) s := by
  rw [pushTrim, append_s_mixed]
  rw [if_neg ?hc]
  case hc =>
    simp only [List.length_append, List.length_cons, List.length_replicate]
    omega

lemma pushTrim_mixed_four_pos (i j : Nat) (s v : ℚ) (hsum : i + j = 4) (hi : 1 ≤ i) :
    pushTrim (List.replicate i s ++ v :: List.replicate j s) s
      = List.replicate (i - 1) s ++ v :: List.replicate (j + 1) s := by
  rw [pushTrim, append_s_mixed]
  rw [if_pos ?hc]
  case hc =>
    simp only [List.length_append, List.length_cons, List.length_replicate]
    omega
  obtain ⟨i1, rfl⟩ : ∃ i1, i = i1 + 1 := ⟨i - 1, by omega⟩
  rw [List.replicate_succ, List.cons_append]
  rfl

lemma pushTrim_mixed_four_zero (s v : ℚ) :
    pushTrim (List.replicate 0 s ++ v :: List.replicate 4 s) s
      = List.replicate 5 s := by
  rw [pushTrim]
  rfl

lemma probStep_no_trigger (cfg : VADOptions) (ps : PState) (q : ℚ)
    (hrec : ps.isRecording = false)
    (hmean : ¬ cfg.speechThreshold < smoothed (pushTrim ps.probBuffer q)) :
    probStep cfg ps q = Except.ok { ps with
      probBuffer := pushTrim ps.probBuffer q
      framesProcessed := ps.framesProcessed + 1
      speechFrames := 0 } := by
  simp only [probStep, processFrame]
  rw [idleStep, if_pos (by exact hrec), if_neg hmean]
  rw [recStep, if_neg (by simp [hrec])]

lemma runProbs_all_s (cfg : VADOptions) (hst : cfg.silenceThreshold < cfg.speechThreshold) :
    ∀ (k m : Nat) (ps : PState), ps.isRecording = false →
      ps.probBuffer = List.replicate m cfg.silenceThreshold → m ≤ 5 →
      ∃ ps1, runProbs cfg ps (List.replicate k cfg.silenceThreshold) = Except.ok ps1 ∧
        neverRecB cfg ps (List.replicate k cfg.silenceThreshold) = true ∧
        ps1.isRecording = false ∧
        ps1.probBuffer = List.replicate (min (m + k) 5) cfg.silenceThreshold
  | 0, m, ps, hrec, hbuf, hm => by
    refine ⟨ps, rfl, rfl, hrec, ?_⟩
    have : min (m + 0) 5 = m := by omega
    rw [this]
    exact hbuf
  | k + 1, m, ps, hrec, hbuf, hm => by
    have hmean : ¬ cfg.speechThreshold
        < smoothed (pushTrim ps.probBuffer cfg.silenceThreshold) := by
      rw [hbuf, pushTrim_replicate m cfg.silenceThreshold hm,
        smoothed_replicate _ _ (by omega)]
      exact not_lt.mpr (le_of_lt hst)
    have hstep := probStep_no_trigger cfg ps cfg.silenceThreshold hrec hmean
    have hbuf1 : pushTrim ps.probBuffer cfg.silenceThreshold
        = List.replicate (min (m + 1) 5) cfg.silenceThreshold := by
      rw [hbuf, pushTrim_replicate m cfg.silenceThreshold hm]
    obtain ⟨ps1, hrun, hnever, hrec1, hbuf2⟩ :=
      runProbs_all_s cfg hst k (min (m + 1) 5)
        { ps with
          probBuffer := pushTrim ps.probBuffer cfg.silenceThreshold
          framesProcessed := ps.framesProcessed + 1
          speechFrames := 0 }
        (by exact hrec) (by exact hbuf1) (by omega)
    refine ⟨ps1, ?_, ?_, hrec1, ?_⟩
    · rw [List.replicate_succ]
      simp only [runProbs, hstep]
      exact hrun
    · rw [List.replicate_succ]
      simp only [neverRecB, hstep]
      rw [hrec] at hnever
      simp only [hrec, Bool.not_false, Bool.true_and]
      exact hnever
    · rw [hbuf2]
      congr 1
      omega

lemma pushTrim_good_step (s v t : ℚ) (hst : s < t) (hv : 3 * s + v ≤ 4 * t)
    (pb : List ℚ) (hg : probBufGood s v pb) :
    probBufGood s v (pushTrim pb s) ∧ ¬ t < smoothed (pushTrim pb s) := by
  rcases hg with ⟨n, hn5, hpb⟩ | ⟨i, j, h3, h4, hpb⟩
  · rw [hpb, pushTrim_replicate n s hn5]
    refine ⟨Or.inl ⟨min (n + 1) 5, by omega, rfl⟩, ?_⟩
    rw [smoothed_replicate _ _ (by omega)]
    exact not_lt.mpr (le_of_lt hst)
  · rw [hpb]
    by_cases hc : i + j = 4
    · by_cases hi : 1 ≤ i
      · rw [pushTrim_mixed_four_pos i j s v hc hi]
        refine ⟨Or.inr ⟨i - 1, j + 1, by omega, by omega, rfl⟩, ?_⟩
        rw [smoothed_mixed]
        have hk : (i - 1) + (j + 1) = 4 := by omega
        rw [hk]
        exact not_lt.mpr (mixed_mean_le s v t 4 (by omega) (by omega) hst hv)
      · have hi0 : i = 0 := by omega
        have hj4 : j = 4 := by omega
        subst hi0
        subst hj4
        rw [pushTrim_mixed_four_zero s v]
        refine ⟨Or.inl ⟨5, by omega, rfl⟩, ?_⟩
        rw [smoothed_replicate 5 s (by omega)]
        exact not_lt.mpr (le_of_lt hst)
    · rw [pushTrim_mixed_small i j s v (by omega)]
      refine ⟨Or.inr ⟨i, j + 1, by omega, by omega, rfl⟩, ?_⟩
      rw [smoothed_mixed]
      have hk : i + (j + 1) = 4 := by omega
      rw [hk]
      exact not_lt.mpr (mixed_mean_le s v t 4 (by omega) (by omega) hst hv)

lemma runProbs_good (cfg : VADOptions) (v : ℚ)
    (hst : cfg.silenceThreshold < cfg.speechThreshold)
    (hv : 3 * cfg.silenceThreshold + v ≤ 4 * cfg.speechThreshold) :
    ∀ (k : Nat) (ps : PState), ps.isRecording = false →
      probBufGood cfg.silenceThreshold v ps.probBuffer →
      ∃ ps1, runProbs cfg ps (List.replicate k cfg.silenceThreshold) = Except.ok ps1 ∧
        neverRecB cfg ps (List.replicate k cfg.silenceThreshold) = true
  | 0, ps, _, _ => ⟨ps, rfl, rfl⟩
  | k + 1, ps, hrec, hg => by
    obtain ⟨hgood, hmean⟩ := pushTrim_good_step cfg.silenceThreshold v cfg.speechThreshold
      hst hv ps.probBuffer hg
    have hstep := probStep_no_trigger cfg ps cfg.silenceThreshold hrec hmean
    obtain ⟨ps1, hrun, hnever⟩ := runProbs_good cfg v hst hv k
      { ps with
        probBuffer := pushTrim ps.probBuffer cfg.silenceThreshold
        framesProcessed := ps.framesProcessed + 1
        speechFrames := 0 }
      (by exact hrec) (by exact hgood)
    refine ⟨ps1, ?_, ?_⟩
    · rw [List.replicate_succ]
      simp only [runProbs, hstep]
      exact hrun
    · rw [List.replicate_succ]
      simp only [neverRecB, hstep]
      rw [hrec] at hnever
      simp only [hrec, Bool.not_false, Bool.true_and]
      exact hnever

lemma probStep_spike (cfg : VADOptions) (v : ℚ) (m : Nat) (ps : PState)
    (hrec : ps.isRecording = false)
    (hbuf : ps.probBuffer = List.replicate m cfg.silenceThreshold)
    (h3 : 3 ≤ m) (h5 : m ≤ 5)
    (hst : cfg.silenceThreshold < cfg.speechThreshold)
    (hv : 3 * cfg.silenceThreshold + v ≤ 4 * cfg.speechThreshold) :
    probStep cfg ps v = Except.ok { ps with
      probBuffer := pushTrim ps.probBuffer v
      framesProcessed := ps.framesProcessed + 1
      speechFrames := 0 } ∧
    probBufGood cfg.silenceThreshold v (pushTrim ps.probBuffer v) := by
  have hshape : pushTrim ps.probBuffer v
      = List.replicate (min m 4) cfg.silenceThreshold
        ++ v :: List.replicate 0 cfg.silenceThreshold := by
    rw [hbuf, pushTrim_spike m cfg.silenceThreshold v h3 h5]
  have hmean : ¬ cfg.speechThreshold < smoothed (pushTrim ps.probBuffer v) := by
    rw [hshape, smoothed_mixed]
    have hk : min m 4 + 0 = min m 4 := by omega
    rw [hk]
    exact not_lt.mpr (mixed_mean_le cfg.silenceThreshold v cfg.speechThreshold (min m 4)
      (by omega) (by omega) hst hv)
  refine ⟨probStep_no_trigger cfg ps v hrec hmean, ?_⟩
  rw [hshape]
  exact Or.inr ⟨min m 4, 0, by omega, by omega, rfl⟩

lemma neverRecB_append (cfg : VADOptions) :
    ∀ (xs ys : List ℚ) (ps mid : PState),
      runProbs cfg ps xs = Except.ok mid →
      neverRecB cfg ps (xs ++ ys)
        = (neverRecB cfg ps xs && neverRecB cfg mid ys)
  | [], ys, ps, mid, h => by
    have hm : ps = mid := (Except.ok.injEq _ _).mp h
    subst hm
    simp [neverRecB]
  | x :: xs, ys, ps, mid, h => by
    simp only [runProbs] at h
    simp only [List.cons_append, neverRecB]
    cases hstp : probStep cfg ps x with
    | error e =>
      simp only [hstp] at h
      exact Except.noConfusion h
    | ok ps1 =>
      simp only [hstp] at h ⊢
      rw [List.append_eq, neverRecB_append cfg xs ys ps1 mid h, Bool.and_assoc]

/-- Claim C5 (amended): a single frame of value `v > speechThreshold`
surrounded by `silenceThreshold`-level frames never drives the machine from
Idle into Recording, provided the spike is preceded by at least 3 silence
frames and `3*silenceThreshold + v ≤ 4*speechThreshold` (so every smoothed
window mean stays at or below `speechThreshold`; with the default thresholds
this holds for any spike `v ≤ 1.25`).  Without these two extra conditions
the original claim fails. -/
theorem hysteresis_stray_spike_amended (cfg : VADOptions) (v : ℚ) (a b : Nat)
    (ha : 3 ≤ a) (hreq : 2 ≤ cfg.requiredSpeechFrames)
    (hst : cfg.silenceThreshold < cfg.speechThreshold)
    (hspike : cfg.speechThreshold < v)
    (hv : 3 * cfg.silenceThreshold + v ≤ 4 * cfg.speechThreshold) :
    neverRecB cfg initPState
      (List.replicate a cfg.silenceThreshold ++ v :: List.replicate b cfg.silenceThreshold)
      = true := by
  obtain ⟨ps1, hrun1, hnever1, hrec1, hbuf1⟩ :=
    runProbs_all_s cfg hst a 0 initPState rfl rfl (by omega)
  obtain ⟨hstep2, hgood2⟩ := probStep_spike cfg v (min (0 + a) 5) ps1 hrec1 hbuf1
    (by omega) (by omega) hst hv
  obtain ⟨ps3, hrun3, hnever3⟩ := runProbs_good cfg v hst hv b
    { ps1 with
      probBuffer := pushTrim ps1.probBuffer v
      framesProcessed := ps1.framesProcessed + 1
      speechFrames := 0 }
    (by exact hrec1) (by exact hgood2)
  rw [neverRecB_append cfg (List.replicate a cfg.silenceThreshold)
    (v :: List.replicate b cfg.silenceThreshold) initPState ps1 hrun1]
  rw [hnever1]
  simp only [Bool.true_and]
  simp only [neverRecB, hstep2]
  rw [hrec1] at hnever3
  simp only [hrec1, Bool.not_false, Bool.true_and]
  exact hnever3

unseal Rat.add Rat.mul Rat.inv in
/-- Witness for the amended C5 at the defaults with spike value 1. -/
theorem hysteresis_stray_spike_amended_witness :
    ((3 : Nat) ≤ 3 ∧ 2 ≤ defaultVADOptions.requiredSpeechFrames ∧
      defaultVADOptions.silenceThreshold < defaultVADOptions.speechThreshold ∧
      defaultVADOptions.speechThreshold < 1 ∧
      3 * defaultVADOptions.silenceThreshold + 1 ≤ 4 * defaultVADOptions.speechThreshold) ∧
    neverRecB defaultVADOptions initPState
      (List.replicate 3 defaultVADOptions.silenceThreshold
        ++ (1 : ℚ) :: List.replicate 2 defaultVADOptions.silenceThreshold) = true :=
  ⟨⟨by decide, by decide, by decide, by decide, by decide⟩,
    hysteresis_stray_spike_amended defaultVADOptions 1 3 2 (by decide) (by decide)
      (by decide) (by decide) (by decide)⟩
